import Mathlib

/-!
Shallow embedding of the 2048-Micro-Genetic repository.

The game engine lives in `src/game/board.py` (legacy `Board` class) and
`src/game/game.py` (`Game` class).  Boards are 4x4 numpy integer arrays whose
cells hold the log2 "rank" of the displayed tile (0 = empty).  We embed boards
as `List (List Nat)` (a list of rows), machine integers as `Nat` (all values
are small and non-negative; no overflow is reachable), and numpy floats that
only ever feed exact comparisons as `Rat`.

The hidden global numpy random generator is modelled as an explicit stream
`Rng`: each `add_tile` call consumes one element `(q, k)` of the stream, where
`q` models the `np.random.random()` draw deciding between a rank-1 and a
rank-2 tile and `k` models the `np.random.choice` draw as an index into the
list of empty cells.  Every concrete outcome of the numpy generator
corresponds to some stream, so properties quantified over all streams cover
all runtime behaviours.
-/

namespace Spec2048

/-- `src/game/action.py`: the `Action` enum. -/
inductive Action where
  | LEFT
  | RIGHT
  | UP
  | DOWN
  | QUIT
deriving DecidableEq, Repr

/-- `src/game/action.py`: `DIRECTIONS = [Action.LEFT, Action.RIGHT, Action.UP, Action.DOWN]`. -/
def DIRECTIONS : List Action := [Action.LEFT, Action.RIGHT, Action.UP, Action.DOWN]

/-- One row of the 4x4 board, as stored ranks (0 = empty). -/
abbrev Row := List Nat

/-- The 4x4 board: a list of four rows. -/
abbrev Board := List Row

/-- The row body of `slide_left` (`game.py` lines 66-71 and `board.py` lines
80-85): drop the zeros of the row and left-pack, padding with zeros to
length 4 (the code uses the literal `4`). -/
def slideRowLeft (r : Row) : Row :=
  r.filter (fun v => v ≠ 0) ++ List.replicate (4 - (r.filter (fun v => v ≠ 0)).length) 0

/-- `slide_left`: the loop `for row in range(4)` applied to each row. -/
def slide_left (b : Board) : Board := b.map slideRowLeft

/-- The row body of `merge_left` (`game.py` lines 73-80, `board.py` 87-96):
the inner loop `for j in range(3)` with the in-place updates
`board[i,j] += 1; board[i,j+1] = 0; points += 2**board[i,j]` whenever
`board[i,j] == board[i,j+1] != 0`.  Returns the new row and the points
earned in it.  Non-4-cell rows never occur; the function is the identity
there. -/
def mergeRowLeft : Row → Row × Nat
  | [a, b, c, d] =>
    let a1 := if a = b ∧ b ≠ 0 then a + 1 else a
    let b1 := if a = b ∧ b ≠ 0 then 0 else b
    let q0 := if a = b ∧ b ≠ 0 then 2 ^ (a + 1) else 0
    let b2 := if b1 = c ∧ c ≠ 0 then b1 + 1 else b1
    let c1 := if b1 = c ∧ c ≠ 0 then 0 else c
    let q1 := if b1 = c ∧ c ≠ 0 then 2 ^ (b1 + 1) else 0
    let c2 := if c1 = d ∧ d ≠ 0 then c1 + 1 else c1
    let d1 := if c1 = d ∧ d ≠ 0 then 0 else d
    let q2 := if c1 = d ∧ d ≠ 0 then 2 ^ (c1 + 1) else 0
    ([a1, b2, c2, d1], q0 + q1 + q2)
  | r => (r, 0)

/-- Number of merge events the `merge_left` pass performs in one row
(a derived measure used to state counting theorems). -/
def mergesRow : Row → Nat
  | [a, b, c, d] =>
    let b1 := if a = b ∧ b ≠ 0 then 0 else b
    let c1 := if b1 = c ∧ c ≠ 0 then 0 else c
    (if a = b ∧ b ≠ 0 then 1 else 0) + (if b1 = c ∧ c ≠ 0 then 1 else 0) +
      (if c1 = d ∧ d ≠ 0 then 1 else 0)
  | _ => 0

/-- `merge_left` over the whole board: new board and total points earned. -/
def merge_left (b : Board) : Board × Nat :=
  (b.map (fun r => (mergeRowLeft r).1), (b.map (fun r => (mergeRowLeft r).2)).sum)

/-- Total number of merge events of a `merge_left` pass on a board. -/
def mergesBoard (b : Board) : Nat := (b.map mergesRow).sum

/-- One counterclockwise quarter turn, `np.rot90(board, 1)`, written out for
the 4x4 shape (row 0 of the result is the last column of the input read top
to bottom).  Boards are always 4x4; other shapes are left unchanged. -/
def ccw : Board → Board
  | [[a, b, c, d], [e, f, g, h], [i, j, k, l], [m, n, o, p]] =>
    [[d, h, l, p], [c, g, k, o], [b, f, j, n], [a, e, i, m]]
  | b => b

/-- `np.rot90(board, rot)` as `rot` counterclockwise quarter turns
(numpy takes `rot` modulo 4; the code only produces 0, 1, 2 and -1, and
-1 is congruent to 3). -/
def rotCCW (k : Nat) (b : Board) : Board := ccw^[k] b

/-- The rotation count `rot` chosen by `move` for each direction
(`game.py` lines 96-103), reduced modulo 4: LEFT 0, UP 1, RIGHT 2,
everything else (DOWN and QUIT fall into the final `else`) -1 = 3. -/
def rotOf : Action → Nat
  | Action.LEFT => 0
  | Action.UP => 1
  | Action.RIGHT => 2
  | _ => 3

/-- The inverse rotation `np.rot90(_, -rot)` reduced modulo 4. -/
def unrotOf : Action → Nat
  | Action.LEFT => 0
  | Action.UP => 3
  | Action.RIGHT => 2
  | _ => 1

/-- The pure slide/merge/slide core of `move` (`game.py` lines 104-109,
`board.py` lines 39-44): rotate so the direction points left, slide, merge,
slide, rotate back.  Returns the new board and the points earned. -/
def move_core (d : Action) (b : Board) : Board × Nat :=
  let r0 := rotCCW (rotOf d) b
  let r1 := slide_left r0
  let m := merge_left r1
  let r3 := slide_left m.1
  (rotCCW (unrotOf d) r3, m.2)

/-- Number of non-empty (non-zero) cells of a board. -/
def countNZ (b : Board) : Nat := (b.flatten.filter (fun v => v ≠ 0)).length

/-- Sum of the displayed values `2^v` over the non-empty cells. -/
def tileSum (b : Board) : Nat :=
  ((b.flatten.filter (fun v => v ≠ 0)).map (fun v => 2 ^ v)).sum

/-- `board.all()` / `np.all(board)`: every cell non-zero. -/
def boardFull (b : Board) : Bool := b.flatten.all (fun v => v ≠ 0)

/-- `np.max(board)`. -/
def boardMax (b : Board) : Nat := b.flatten.foldr max 0

/-- Explicit model of the numpy global random generator: an infinite stream of
draws together with a cursor.  Component `q` of a draw models the float
`np.random.random()` and component `k` models the `np.random.choice` pick as
an index into the choice list. -/
structure Rng where
  gen : Nat → Rat × Nat
  idx : Nat

/-- Consume one draw. -/
def Rng.next (r : Rng) : (Rat × Nat) × Rng := (r.gen r.idx, ⟨r.gen, r.idx + 1⟩)

/-- `[i for i in range(16) if not board[i]]` over the flattened board. -/
def emptyIdxs (b : Board) : List Nat :=
  (List.range 16).filter (fun i => b.flatten.getD i 1 = 0)

/-- Write value `v` at flat position `pos` of the flattened board and reshape
back to 4x4, mirroring `board.reshape(16); board[pos] = val;
board.reshape((4,4))`. -/
def setFlat (b : Board) (pos v : Nat) : Board :=
  let f := (b.flatten.set pos v)
  [f.take 4, (f.drop 4).take 4, (f.drop 8).take 4, f.drop 12]

/-- The common random part of `add_tile` (`game.py` lines 36-45, `board.py`
lines 55-64): draw the tile value (rank 2, i.e. tile "4", iff the uniform
draw exceeds 0.9, else rank 1), pick an empty cell and write the value.
`np.random.choice` of an empty list raises in Python; that is the `none`
case.  Returns the new board, the spawned rank and the advanced stream. -/
def spawnTile (b : Board) (rng : Rng) : Option (Board × Nat × Rng) :=
  let d := rng.next
  let q := d.1.1
  let k := d.1.2
  let val : Nat := if q > mkRat 9 10 then 2 else 1
  let vp := emptyIdxs b
  if vp = [] then none
  else some (setFlat b (vp.getD (k % vp.length) 0) val, val, d.2)

/-! ### The `Game` class of `src/game/game.py` -/

/-- The mutable attributes of `Game`. -/
structure GameSt where
  board : Board
  score : Nat
  highestTile : Nat
  gameOver : Bool
deriving DecidableEq, Repr

namespace Game

/-- `Game.move(direction, add_tile=False)` (lines 82-115 without the spawn):
no-op returning `False` when the game is over, otherwise rotate/slide/merge/
slide/rotate (the merge adds its points to `self.score`) and report whether
the board changed.  The board attribute is reassigned even when unchanged in
value. -/
def move_no_tile (d : Action) (s : GameSt) : Bool × GameSt :=
  if s.gameOver then (false, s)
  else
    let m := move_core d s.board
    (decide (m.1 ≠ s.board), { s with board := m.1, score := s.score + m.2 })

/-- The probe loop of `Game.get_legal_moves` (lines 56-63): try each
direction with `add_tile=False`; if the move was legal, restore board and
score from the saved copies and record the direction. -/
def glmLoop (origB : Board) (origS : Nat) : List Action → GameSt → List Action × GameSt
  | [], s => ([], s)
  | d :: ds, s =>
    let p := move_no_tile d s
    if p.1 then
      let rest := glmLoop origB origS ds { p.2 with board := origB, score := origS }
      (d :: rest.1, rest.2)
    else
      glmLoop origB origS ds p.2

/-- `Game.get_legal_moves` (lines 50-64): `[]` if the game is over, else the
directions whose probe changes the board, probed in `DIRECTIONS` order. -/
def get_legal_moves (s : GameSt) : List Action × GameSt :=
  if s.gameOver then ([], s)
  else glmLoop s.board s.score DIRECTIONS s

/-- `Game.add_tile` (lines 34-48): spawn a tile, update `highest_tile` to
`2 ** np.max(board)`, and if the board is full and `get_legal_moves()` is
empty set `game_over = True` (the conjunction short-circuits, so the legal
moves are only probed on a full board). -/
def add_tile (s : GameSt) (rng : Rng) : Option (GameSt × Rng) :=
  match spawnTile s.board rng with
  | none => none
  | some (b2, _, rng1) =>
    let s1 := { s with board := b2, highestTile := 2 ^ boardMax b2 }
    if boardFull b2 then
      let g := get_legal_moves s1
      if g.1 = [] then some ({ g.2 with gameOver := true }, rng1) else some (g.2, rng1)
    else some (s1, rng1)

/-- `Game.move(direction)` with the default `add_tile=True` (lines 82-115):
after a legal (board-changing) slide/merge/slide, spawn a tile. -/
def move (d : Action) (s : GameSt) (rng : Rng) : Option (Bool × GameSt × Rng) :=
  if s.gameOver then some (false, s, rng)
  else
    let m := move_core d s.board
    let s1 := { s with board := m.1, score := s.score + m.2 }
    if m.1 ≠ s.board then
      match add_tile s1 rng with
      | none => none
      | some (s2, rng1) => some (true, s2, rng1)
    else some (false, s1, rng)

end Game

/-! ### The legacy `Board` class of `src/game/board.py`

`Board.move`, `Board.is_game_over` and `Board.has_legal_moves` are mutually
recursive in the source (`move` ends with `self.game_over =
self.is_game_over()`, `is_game_over` calls `has_legal_moves`, and
`has_legal_moves` probes with `move`), and this recursion genuinely diverges
on some boards (e.g. any full board whose LEFT probe is illegal).  We embed
the three methods as one interpreter `bStep` over a request type, structurally
recursive on a fuel argument; `none` means the fuel ran out (or
`np.random.choice` was applied to an empty list, which raises in Python). -/

/-- The mutable attributes of `Board` (`game_over` holds Python truthiness:
the source stores `True`/`False` but also the ints `-1`/`-2` produced by
`~bool`, which are truthy; we store the truthiness). -/
structure BoardSt where
  board : Board
  gameOver : Bool
deriving DecidableEq, Repr

namespace BoardPy

/-- `Board.add_tile` (lines 53-64): spawn with no further bookkeeping. -/
def add_tile (s : BoardSt) (rng : Rng) : Option (BoardSt × Rng) :=
  match spawnTile s.board rng with
  | none => none
  | some (b2, _, rng1) => some ({ s with board := b2 }, rng1)

/-- Requests of the `Board` interpreter: `mv d` is `Board.move(d)`, `igo` is
`Board.is_game_over()`, and `hlmLoop dirs orig` is the probe loop of
`Board.has_legal_moves` with the saved `orig_board` copy and the directions
still to try. -/
inductive BReq where
  | mv (d : Action)
  | hlmLoop (dirs : List Action) (orig : Board)
  | igo

/-- One fuel-indexed interpreter for the three mutually recursive `Board`
methods.  The result is `(value, points, state, rng)`; `points` is only
meaningful for `mv`, `value` is the returned boolean (for `igo` it is the
truthiness of `np.all(board) and ~self.has_legal_moves()` — note that in
Python `~` on a `bool` yields the ints `-2`/`-1`, which are both truthy, so a
terminating `is_game_over()` call is truthy exactly when the board is full). -/
def bStep : Nat → BReq → BoardSt → Rng → Option (Bool × Nat × BoardSt × Rng)
  | 0, _, _, _ => none
  | Nat.succ f, BReq.mv d, s, rng =>
    -- Board.move, lines 17-51
    if s.gameOver then some (false, 0, s, rng)
    else
      let m := move_core d s.board
      let legal := decide (m.1 ≠ s.board)
      let s1 : BoardSt := { s with board := m.1 }
      match (if legal then add_tile s1 rng else some (s1, rng)) with
      | none => none
      | some (s2, rng1) =>
        -- `self.game_over = self.is_game_over()`
        match bStep f BReq.igo s2 rng1 with
        | none => none
        | some (go, _, s3, rng2) => some (legal, m.2, { s3 with gameOver := go }, rng2)
  | Nat.succ _, BReq.hlmLoop [] _, s, rng => some (false, 0, s, rng)
  | Nat.succ f, BReq.hlmLoop (d :: ds) orig, s, rng =>
    -- Board.has_legal_moves, lines 66-74: probe, then restore `self.board`
    -- (but not `self.game_over`), and stop at the first legal direction.
    match bStep f (BReq.mv d) s rng with
    | none => none
    | some (legal, _, s1, rng1) =>
      let s2 : BoardSt := { s1 with board := orig }
      if legal then some (true, 0, s2, rng1)
      else bStep f (BReq.hlmLoop ds orig) s2 rng1
  | Nat.succ f, BReq.igo, s, rng =>
    -- Board.is_game_over, lines 76-78: `np.all(self.board) and
    -- ~self.has_legal_moves()`; `and` short-circuits on a non-full board,
    -- and on a full board the result `~bool` is truthy either way.
    if boardFull s.board then
      match bStep f (BReq.hlmLoop DIRECTIONS s.board) s rng with
      | none => none
      | some (_, _, s1, rng1) => some (true, 0, s1, rng1)
    else some (false, 0, s, rng)

/-- `Board.is_game_over()` with the given fuel. -/
def is_game_over (fuel : Nat) (s : BoardSt) (rng : Rng) : Option (Bool × Nat × BoardSt × Rng) :=
  bStep fuel BReq.igo s rng

/-- `Board.has_legal_moves()` with the given fuel. -/
def has_legal_moves (fuel : Nat) (s : BoardSt) (rng : Rng) :
    Option (Bool × Nat × BoardSt × Rng) :=
  bStep fuel (BReq.hlmLoop DIRECTIONS s.board) s rng

/-- `Board.move(direction)` with the given fuel. -/
def move (fuel : Nat) (d : Action) (s : BoardSt) (rng : Rng) :
    Option (Bool × Nat × BoardSt × Rng) :=
  bStep fuel (BReq.mv d) s rng

end BoardPy

/-! ### The `Net` player of `src/players/net.py`

The 340-entry chromosome is embedded as a function `Nat → Rat`; numpy's
`reshape((17,16))` / `reshape((17,4))` become the row-major index formulas
`16*i + j` and `272 + 4*i + j`.  Float arithmetic is embedded as exact `Rat`
arithmetic (the float literals 0.01, 0.4, 0.9 ... are read at their decimal
values). -/

namespace Net

/-- `Net.relu`: the leaky ReLU `np.maximum(0.01*x, x)` (0.01 = 1/100). -/
def relu (x : Rat) : Rat := max (x * mkRat 1 100) x

/-- `Net.make_move` (lines 69-88): normalize the flattened board by its
maximum (`mkRat v m` is the exact quotient `v / m`), prepend the bias 1,
multiply by the 17x16 input matrix, apply the leaky ReLU, prepend the bias
again and multiply by the 17x4 output matrix.  Returns the 4 raw outputs. -/
def make_move (chromosome : Nat → Rat) (b : Board) : List Rat :=
  let m := boardMax b
  let x : List Rat := 1 :: b.flatten.map (fun v => mkRat v m)
  let h : List Rat := (List.range 16).map (fun j =>
    ((List.range 17).map (fun i => x.getD i 0 * chromosome (16 * i + j))).sum)
  let h1 : List Rat := 1 :: h.map relu
  (List.range 4).map (fun j =>
    ((List.range 17).map (fun i => h1.getD i 0 * chromosome (272 + 4 * i + j))).sum)

/-- The accumulator loop of `Net.choose_action` (lines 93-98): iterate over
`zip(DIRECTIONS, self.make_move(game.board))` keeping `best_move` and
`highest_priority`; the update `highest_priority = highest_priority` of the
source is a self-assignment, so the accumulator keeps its initial `-inf`
(embedded as `⊥ : WithBot Rat`). -/
def caLoop : List (Action × Rat) → List Action → Option Action → WithBot Rat → Option Action
  | [], _, best, _ => best
  | (d, p) :: rest, lm, best, hp =>
    if d ∈ lm ∧ hp < (p : WithBot Rat) then caLoop rest lm (some d) hp
    else caLoop rest lm best hp

/-- `Net.choose_action` (lines 90-99): read the legal moves (a state-restoring
probe), evaluate the net, and run the accumulator loop; `None` is returned
when no direction qualifies.  Returns the chosen action and the game state
after the probe. -/
def choose_action (chromosome : Nat → Rat) (g : GameSt) : Option Action × GameSt :=
  let lm := Game.get_legal_moves g
  (caLoop (DIRECTIONS.zip (make_move chromosome g.board)) lm.1 none ⊥, lm.2)

/-- The continuous-weight parents used by `Net.__init__`: `mom.score` /
`dad.score` (a float in the lineage's `src/net.py`, where the attribute is
defined) and the 340-entry chromosome. -/
structure NetC where
  score : Rat
  chromosome : List Rat

/-- The crossover branch of `Net.__init__` (lines 43-56): one uniform draw per
chromosome position; if `mom.score > dad.score` take mom's weight when the
draw exceeds 0.4 (= 2/5) and dad's otherwise, and symmetrically (the
fitness tie lands in the dad-favoured branch).  `u` is the stream of
`np.random.random()` draws, consumed in position order. -/
def crossover_chromosome (mom dad : NetC) (u : Nat → Rat) : List Rat :=
  if mom.score > dad.score then
    (List.range mom.chromosome.length).map (fun i =>
      if u i > mkRat 2 5 then mom.chromosome.getD i 0 else dad.chromosome.getD i 0)
  else
    (List.range mom.chromosome.length).map (fun i =>
      if u i > mkRat 2 5 then dad.chromosome.getD i 0 else mom.chromosome.getD i 0)

/-- `Net.mutate` (lines 58-62): add `randn()/10` to each position whose
uniform draw is below 0.02 (= 1/50).  `uP` is the stream of uniform draws,
`uG` the stream of Gaussian draws. -/
def mutate_chromosome (c : List Rat) (uP uG : Nat → Rat) : List Rat :=
  (List.range c.length).map (fun i =>
    c.getD i 0 + (if uP i < mkRat 1 50 then uG i * mkRat 1 10 else 0))

end Net

/-! ### The binary `Genome` of `src/genetics/genome.py`

The module constants are `HIDDEN_LAYER_SIZE = 256`, `NUM_HIDDEN_LAYERS = 2`,
giving weight shapes (16, 256), (1, 256, 256) and (256, 4).  The decisive
subtlety: `zip(mom.input_weights, dad.input_weights)` iterates over the ROWS
of the 2-d numpy arrays, so each uniform draw selects a whole row of 256
(resp. 4) weights from one parent.  Weights are the integers -1 and +1. -/

namespace Genome

def HIDDEN_LAYER_SIZE : Nat := 256

def NUM_HIDDEN_LAYERS : Nat := 2

structure GenomeB where
  input_weights : List (List Int)
  hidden_weights : List (List (List Int))
  output_weights : List (List Int)

/-- The comprehension `[m if np.random.random() > 0.5 else d for m, d in
zip(mom_w, dad_w)]` over a 2-d weight matrix: one draw per ROW.  `k` is the
index of the next draw in the stream `u`. -/
def chooseZip : List (List Int × List Int) → (Nat → Rat) → Nat → List (List Int)
  | [], _, _ => []
  | (mr, dr) :: rest, u, k =>
    (if u k > mkRat 1 2 then mr else dr) :: chooseZip rest u (k + 1)

/-- The hidden-weights loop of `_spawn_child_chromosome` (lines 35-38): for
each hidden layer pair, the same row-wise choice.  Each layer consumes its
own draw stream `u l`. -/
def chooseHidden : List (List (List Int) × List (List Int)) → (Nat → Nat → Rat) → Nat →
    List (List (List Int))
  | [], _, _ => []
  | (mh, dh) :: rest, u, l => chooseZip (mh.zip dh) (u l) 0 :: chooseHidden rest u (l + 1)

/-- The local `mutate` of `_spawn_child_chromosome` (lines 43-45): multiply
each entry by -1 with probability 0.01, i.e. when its uniform draw is below
1/100; the mutation array is indexed over the flattened (row-major) array,
so row `r` of length `L` starting at flat offset `base` uses draws
`base..base+L-1`. -/
def mutateRows : List (List Int) → (Nat → Rat) → Nat → List (List Int)
  | [], _, _ => []
  | r :: rest, u, base =>
    (List.range r.length).map
        (fun j => r.getD j 0 * (if u (base + j) < mkRat 1 100 then -1 else 1)) ::
      mutateRows rest u (base + r.length)

/-- 3-d variant of `mutateRows` for the hidden weights (one stream per
layer). -/
def mutateHidden : List (List (List Int)) → (Nat → Nat → Rat) → Nat → List (List (List Int))
  | [], _, _ => []
  | l :: rest, u, k => mutateRows l (u k) 0 :: mutateHidden rest u (k + 1)

/-- `Genome._spawn_child_chromosome` (lines 30-47): row-wise crossover of the
three weight blocks followed by the elementwise sign-flip mutation.  The
single global numpy stream is modelled as one independent stream per
comprehension (`uIn`/`uHid`/`uOut` for the crossover draws, `mIn`/`mHid`/
`mOut` for the mutation draws); every combination of draws reachable at
runtime is reachable in the model. -/
def spawn_child_chromosome (mom dad : GenomeB) (uIn : Nat → Rat) (uHid : Nat → Nat → Rat)
    (uOut : Nat → Rat) (mIn : Nat → Rat) (mHid : Nat → Nat → Rat) (mOut : Nat → Rat) :
    GenomeB :=
  let iw := chooseZip (mom.input_weights.zip dad.input_weights) uIn 0
  let hw := chooseHidden (mom.hidden_weights.zip dad.hidden_weights) uHid 0
  let ow := chooseZip (mom.output_weights.zip dad.output_weights) uOut 0
  ⟨mutateRows iw mIn 0, mutateHidden hw mHid 0, mutateRows ow mOut 0⟩

/-- Modelled from the spec: the crossover rule as claim C8 words it, with the
choice between the parents' weights made independently for EVERY INDIVIDUAL
WEIGHT POSITION of a 2-d block (draw `u i j` for row `i`, column `j`).  Used
only to contrast with the row-wise `chooseZip` of the source. -/
def crossoverPerWeightSpec (m d : List (List Int)) (u : Nat → Nat → Rat) : List (List Int) :=
  (List.range (min m.length d.length)).map (fun i =>
    let mr := m.getD i []
    let dr := d.getD i []
    (List.range (min mr.length dr.length)).map (fun j =>
      if u i j > mkRat 1 2 then mr.getD j 0 else dr.getD j 0))

end Genome

/-! ### `src/genetics/population.py` and the staged schedule of
`src/genetics/strategies.py`

`NetworkPlayer` (imported there from the `players` package, whose module file
is not part of the sources) is the `Net` player: for the population-size
bookkeeping of claim C9 only its generation number and accumulated per-game
statistics matter, so the embedded `NetP` carries those; the weight vector
plays no role in any counting or sorting operation.

`get_avg_score` is `np.exp(np.mean(np.log(scores)))`, the geometric mean.
For sorting, `geomean(a) ≥ geomean(b)` holds exactly when
`(prod a.scores) ^ (len b.scores) ≥ (prod b.scores) ^ (len a.scores)` (both
sides positive, log is monotone), which is the exact integer comparison the
embedded comparator uses. -/

namespace Pop

/-- The fitness-relevant attributes of a `NetworkPlayer`. -/
structure NetP where
  generation : Nat
  scores : List Nat
  highest_tiles : List Nat
deriving DecidableEq, Repr

/-- Exact surrogate of `n1.get_avg_score() >= n2.get_avg_score()` via
cross-multiplied powers of the score products. -/
def geomGe (n1 n2 : NetP) : Bool :=
  decide (n2.scores.prod ^ n1.scores.length ≤ n1.scores.prod ^ n2.scores.length)

/-- The `Population` attributes (`population.py` lines 27-58); `similarity`
is a pure float statistic with no influence on control flow and is omitted. -/
structure PopulationP where
  generation : Nat
  num_nets : Nat
  num_elite : Nat
  networks : List NetP
  elites : List NetP
deriving DecidableEq, Repr

/-- Modelled from the spec: the module constants `NETS_PER_POP` and
`NUM_ELITE` that `strategies.py` imports from `genetics.population` are not
present in the given sources; the spec's reference scenario fixes population
size 8 and elite count 2. -/
def NETS_PER_POP : Nat := 8

/-- Modelled from the spec: see `NETS_PER_POP`. -/
def NUM_ELITE : Nat := 2

/-- Stable insertion step: place `a` before the first element it compares
greater-or-equal to. -/
def insertGe (le : NetP → NetP → Bool) (a : NetP) : List NetP → List NetP
  | [] => [a]
  | b :: t => if le a b then a :: b :: t else b :: insertGe le a t

/-- Stable insertion sort (equal elements keep their original order, as with
Python `list.sort`). -/
def sortGe (le : NetP → NetP → Bool) : List NetP → List NetP
  | [] => []
  | a :: t => insertGe le a (sortGe le t)

/-- `Population.get_sorted_networks` (lines 121-138): copy `networks`, append
the elites when asked, and stable-sort descending by average score
(`list.sort(key=..., reverse=True)` is stable, as is this insertion sort). -/
def get_sorted_networks (p : PopulationP) (includeElites : Bool) : List NetP :=
  sortGe geomGe (p.networks ++ (if includeElites then p.elites else []))

/-- The `pop is None` branch of `Population.__init__` (lines 40-47):
generation 1, no elites, `num_nets` freshly generated networks (their random
weights are irrelevant here; fresh players have empty statistics). -/
def randomPopulation (numNets numElite : Nat) : PopulationP :=
  ⟨1, numNets, numElite, (List.range numNets).map (fun _ => ⟨1, [], []⟩), []⟩

/-- `Population._spawn_children` (lines 60-74): `num_nets - num_elite`
children bred from pairs drawn by `np.random.choice(parents, 2,
replace=False)`, which raises when fewer than 2 parents exist (the `none`
case).  A child is a fresh generation-`g` player with empty statistics. -/
def spawn_children (g : Nat) (count : Nat) (parents : List NetP) : Option (List NetP) :=
  if parents.length < 2 then none
  else some ((List.range count).map (fun _ => ⟨g, [], []⟩))

/-- The `pop` branch of `Population.__init__` (lines 48-57): next generation
from a previous population — elites are the top `num_elite` of the sorted
previous networks (elites included), children fill the rest. -/
def next_generation (p : PopulationP) : Option PopulationP :=
  let prev := get_sorted_networks p true
  match spawn_children (p.generation + 1) (p.num_nets - p.num_elite) prev with
  | none => none
  | some kids =>
    some ⟨p.generation + 1, p.num_nets, p.num_elite, kids, prev.take p.num_elite⟩

/-- The threshold filter of `Population.play_games` (line 113) with the
default `thresh=0`: a network plays iff it has no scores yet or its average
score exceeds 0 (i.e. no recorded score is 0). -/
def playsNet (n : NetP) : Bool := n.scores = [] ∨ 0 < n.scores.prod

/-- One network playing `games` more games: the outcome oracle `o` supplies
each game's final score and highest tile (the per-game outcomes are produced
by full game playouts whose details are irrelevant to the bookkeeping
claims). -/
def extendNet (games : Nat) (o : Nat → Nat × Nat) (n : NetP) : NetP :=
  if playsNet n then
    { n with scores := n.scores ++ (List.range games).map (fun i => (o i).1),
             highest_tiles := n.highest_tiles ++ (List.range games).map (fun i => (o i).2) }
  else n

/-- `Population.play_games` (lines 96-119): every qualifying network (and,
when asked, elite) plays `games` more games in place. -/
def play_games (games : Nat) (includeElites : Bool) (o : Nat → Nat × Nat)
    (p : PopulationP) : PopulationP :=
  { p with networks := p.networks.map (extendNet games o),
           elites := if includeElites then p.elites.map (extendNet games o) else p.elites }

/-- The first cull of `run_micro_genetic_alg` (`strategies.py` line 38):
`pop.networks = pop.get_sorted_networks(include_elites=False)[:NETS_PER_POP
// 2 - NUM_ELITE]`. -/
def cull_half (p : PopulationP) : PopulationP :=
  { p with networks := (get_sorted_networks p false).take (NETS_PER_POP / 2 - NUM_ELITE) }

/-- The second cull (`strategies.py` line 42): keep the top `NETS_PER_POP //
4 - NUM_ELITE`. -/
def cull_quarter (p : PopulationP) : PopulationP :=
  { p with networks := (get_sorted_networks p false).take (NETS_PER_POP / 4 - NUM_ELITE) }

end Pop

/-! ### Counting lemmas for the merge algorithm -/

/-- Non-zero count of a single row. -/
def countRowNZ (r : Row) : Nat := (r.filter (fun v => v ≠ 0)).length

/-- Displayed-value sum of a single row. -/
def tileSumRow (r : Row) : Nat := ((r.filter (fun v => v ≠ 0)).map (fun v => 2 ^ v)).sum

/-- The merge count reachable from `move_core`: merges happen on the slid,
rotated board. -/
def mergesMove (d : Action) (b : Board) : Nat :=
  mergesBoard (slide_left (rotCCW (rotOf d) b))

/-! ### Concrete test inputs used by the witnesses and counterexamples -/

/-- A draw stream: every uniform draw is 0.5 (spawning a rank-1 tile) and
every choice draw picks the first empty cell. -/
def rngHalf : Rng := ⟨fun _ => (mkRat 1 2, 0), 0⟩

/-- Like `rngHalf` but the choice draw picks the second empty cell. -/
def rngHalfSnd : Rng := ⟨fun _ => (mkRat 1 2, 1), 0⟩

/-- A full board whose LEFT move is legal (row 0 merges twice); rows 1-3 have
no horizontal pair. -/
def fullBoardC1 : Board := [[1, 1, 2, 2], [2, 1, 2, 1], [1, 2, 1, 2], [2, 1, 2, 1]]

/-- A full board whose LEFT move merges exactly once in row 0; the refill
spawn makes the probe board full again, driving `is_game_over` one level
deeper. -/
def fullBoardC6 : Board := [[1, 1, 2, 1], [1, 2, 1, 2], [2, 1, 2, 1], [1, 2, 1, 2]]

/-- A reachable early-game state: two rank-1 tiles in the top row.  LEFT,
RIGHT and DOWN are legal; UP is not. -/
def gameStC2 : GameSt := ⟨[[1, 1, 0, 0], [0, 0, 0, 0], [0, 0, 0, 0], [0, 0, 0, 0]], 0, 2, false⟩

/-- A state whose LEFT move merges two pairs (so the non-zero count drops). -/
def gameStC3 : GameSt := ⟨[[1, 1, 2, 2], [0, 0, 0, 0], [0, 0, 0, 0], [0, 0, 0, 0]], 0, 4, false⟩

/-- A terminal state (the flag is set; field values are otherwise arbitrary). -/
def gameStOver : GameSt := ⟨fullBoardC1, 40, 4, true⟩

/-- Binary genome with every weight +1, in the real shapes (16, 256),
(1, 256, 256), (256, 4). -/
def momGenome : Genome.GenomeB :=
  ⟨List.replicate 16 (List.replicate 256 1),
    List.replicate 1 (List.replicate 256 (List.replicate 256 1)),
    List.replicate 256 (List.replicate 4 1)⟩

/-- Binary genome with every weight -1. -/
def dadGenome : Genome.GenomeB :=
  ⟨List.replicate 16 (List.replicate 256 (-1)),
    List.replicate 1 (List.replicate 256 (List.replicate 256 (-1))),
    List.replicate 256 (List.replicate 4 (-1))⟩

/-- An input-weight block mixing the two parents inside row 0 (entry (0,0)
from mom, entry (0,1) from dad): reachable under per-weight crossover,
unreachable under the row-wise crossover of the source. -/
def mixedTarget : List (List Int) :=
  (List.replicate 16 (List.replicate 256 (1 : Int))).set 0
    ((List.replicate 256 (1 : Int)).set 1 (-1))

/-- Game-outcome oracle: every game ends with score 4 and highest tile 4. -/
def oracle44 : Nat → Nat × Nat := fun _ => (4, 4)

/-- Generation 1 of the reference run (`run_micro_genetic_alg`): random
population of `NETS_PER_POP` networks, first batch of 10 games, first cull. -/
def popAfterFirstCull : Pop.PopulationP :=
  Pop.cull_half (Pop.play_games 10 false oracle44
    (Pop.randomPopulation Pop.NETS_PER_POP Pop.NUM_ELITE))

theorem filter_slideRow (r : Row) :
    (slideRowLeft r).filter (fun v => v ≠ 0) = r.filter (fun v => v ≠ 0) := by
  have hrep : (List.replicate (4 - (r.filter (fun v => v ≠ 0)).length) 0).filter
      (fun v => (v ≠ 0 : Bool)) = [] := by
    induction (4 - (r.filter (fun v => v ≠ 0)).length) with
    | zero => rfl
    | succ n ih => simpa [List.replicate_succ] using ih
  simp [slideRowLeft, List.filter_append, hrep, List.filter_filter]

theorem countRow_slide (r : Row) : countRowNZ (slideRowLeft r) = countRowNZ r := by
  unfold countRowNZ
  rw [filter_slideRow]

theorem tileSumRow_slide (r : Row) : tileSumRow (slideRowLeft r) = tileSumRow r := by
  unfold tileSumRow
  rw [filter_slideRow]

theorem countRow4 (a b c d : Nat) :
    countRowNZ [a, b, c, d] = (if a = 0 then 0 else 1) + (if b = 0 then 0 else 1) +
      (if c = 0 then 0 else 1) + (if d = 0 then 0 else 1) := by
  simp only [countRowNZ, List.filter]
  split_ifs <;> simp_all <;> omega

theorem tileSumRow4 (a b c d : Nat) :
    tileSumRow [a, b, c, d] = (if a = 0 then 0 else 2 ^ a) + (if b = 0 then 0 else 2 ^ b) +
      (if c = 0 then 0 else 2 ^ c) + (if d = 0 then 0 else 2 ^ d) := by
  simp only [tileSumRow, List.filter]
  split_ifs <;> simp_all <;> omega

/-- Closed form of the sequential merge pass on a 4-cell row: a merge at
position 0 zeroes cell 1, so positions 1/2 can never merge afterwards, and a
merge at position 1 zeroes cell 2, blocking position 2. -/
theorem mergeRow4_eq (a b c d : Nat) :
    mergeRowLeft [a, b, c, d] =
      if a = b ∧ b ≠ 0 then
        (if c = d ∧ d ≠ 0 then ([a + 1, 0, c + 1, 0], 2 ^ (a + 1) + 2 ^ (c + 1))
          else ([a + 1, 0, c, d], 2 ^ (a + 1)))
      else if b = c ∧ c ≠ 0 then ([a, b + 1, 0, d], 2 ^ (b + 1))
      else if c = d ∧ d ≠ 0 then ([a, b, c + 1, 0], 2 ^ (c + 1))
      else ([a, b, c, d], 0) := by
  have h2c : ¬((0 : Nat) = c ∧ c ≠ 0) := by rintro ⟨he, hne⟩; exact hne he.symm
  have h2d : ¬((0 : Nat) = d ∧ d ≠ 0) := by rintro ⟨he, hne⟩; exact hne he.symm
  by_cases h1 : a = b ∧ b ≠ 0
  · obtain ⟨heq, hb⟩ := h1
    subst heq
    by_cases h3 : c = d ∧ d ≠ 0
    · obtain ⟨heq2, hd⟩ := h3
      subst heq2
      simp [mergeRowLeft, hb, hd, Ne.symm hd]
    · simp [mergeRowLeft, hb, h3, h2c]
  · by_cases h2 : b = c ∧ c ≠ 0
    · obtain ⟨heq, hc⟩ := h2
      subst heq
      have hab : ¬ a = b := fun hx => h1 ⟨hx, hc⟩
      simp [mergeRowLeft, hab, hc, h2d]
    · by_cases h3 : c = d ∧ d ≠ 0
      · obtain ⟨heq, hd⟩ := h3
        subst heq
        have hbc : ¬ b = c := fun hx => h2 ⟨hx, hd⟩
        simp [mergeRowLeft, h1, hbc, hd, Ne.symm hd]
      · simp [mergeRowLeft, h1, h2, h3]

/-- Closed form of the merge-event count on a 4-cell row (same case shape as
`mergeRow4_eq`). -/
theorem mergesRow4_eq (a b c d : Nat) :
    mergesRow [a, b, c, d] =
      if a = b ∧ b ≠ 0 then (if c = d ∧ d ≠ 0 then 2 else 1)
      else if b = c ∧ c ≠ 0 then 1
      else if c = d ∧ d ≠ 0 then 1
      else 0 := by
  have h2c : ¬((0 : Nat) = c ∧ c ≠ 0) := by rintro ⟨he, hne⟩; exact hne he.symm
  have h2d : ¬((0 : Nat) = d ∧ d ≠ 0) := by rintro ⟨he, hne⟩; exact hne he.symm
  by_cases h1 : a = b ∧ b ≠ 0
  · obtain ⟨heq, hb⟩ := h1
    subst heq
    by_cases h3 : c = d ∧ d ≠ 0
    · obtain ⟨heq2, hd⟩ := h3
      subst heq2
      simp [mergesRow, hb, hd, Ne.symm hd]
    · simp [mergesRow, hb, h3, h2c]
  · by_cases h2 : b = c ∧ c ≠ 0
    · obtain ⟨heq, hc⟩ := h2
      subst heq
      have hab : ¬ a = b := fun hx => h1 ⟨hx, hc⟩
      simp [mergesRow, hab, hc, h2d]
    · by_cases h3 : c = d ∧ d ≠ 0
      · obtain ⟨heq, hd⟩ := h3
        subst heq
        have hbc : ¬ b = c := fun hx => h2 ⟨hx, hd⟩
        simp [mergesRow, h1, hbc, hd, Ne.symm hd]
      · simp [mergesRow, h1, h2, h3]

theorem countRow_merge (r : Row) :
    countRowNZ (mergeRowLeft r).1 + mergesRow r = countRowNZ r := by
  match r with
  | [] => rfl
  | [a] => rfl
  | [a, b] => rfl
  | [a, b, c] => rfl
  | a :: b :: c :: d :: e :: rest => rfl
  | [a, b, c, d] =>
    rw [mergeRow4_eq, mergesRow4_eq]
    split_ifs with h1 h2 h3 h4
    · obtain ⟨rfl, hb⟩ := h1
      obtain ⟨rfl, hd⟩ := h2
      dsimp only
      simp only [countRow4, eq_self_iff_true, if_true]
      split_ifs <;> first | omega | simp_all
    · obtain ⟨rfl, hb⟩ := h1
      dsimp only
      simp only [countRow4, eq_self_iff_true, if_true]
      split_ifs <;> first | omega | simp_all
    · obtain ⟨rfl, hc⟩ := h3
      dsimp only
      simp only [countRow4, eq_self_iff_true, if_true]
      split_ifs <;> first | omega | simp_all
    · obtain ⟨rfl, hd⟩ := h4
      dsimp only
      simp only [countRow4, eq_self_iff_true, if_true]
      split_ifs <;> first | omega | simp_all
    · dsimp only
      simp only [countRow4]
      split_ifs <;> first | omega | simp_all

theorem tileSumRow_merge (r : Row) : tileSumRow (mergeRowLeft r).1 = tileSumRow r := by
  match r with
  | [] => rfl
  | [a] => rfl
  | [a, b] => rfl
  | [a, b, c] => rfl
  | a :: b :: c :: d :: e :: rest => rfl
  | [a, b, c, d] =>
    rw [mergeRow4_eq]
    by_cases h1 : a = b ∧ b ≠ 0
    · obtain ⟨heq, hb⟩ := h1
      subst heq
      by_cases h3 : c = d ∧ d ≠ 0
      · obtain ⟨heq2, hd⟩ := h3
        subst heq2
        simp [tileSumRow4, hb, hd, Ne.symm hd, pow_succ]
        all_goals ((try split_ifs) <;> omega)
      · simp [tileSumRow4, hb, h3, pow_succ]
        all_goals ((try split_ifs) <;> omega)
    · by_cases h2 : b = c ∧ c ≠ 0
      · obtain ⟨heq, hc⟩ := h2
        subst heq
        have hab : ¬ a = b := fun hx => h1 ⟨hx, hc⟩
        simp [tileSumRow4, hc, hab, pow_succ]
        all_goals ((try split_ifs) <;> omega)
      · by_cases h3 : c = d ∧ d ≠ 0
        · obtain ⟨heq, hd⟩ := h3
          subst heq
          have hbc : ¬ b = c := fun hx => h2 ⟨hx, hd⟩
          simp [tileSumRow4, hd, h1, hbc, Ne.symm hd, pow_succ]
          all_goals ((try split_ifs) <;> omega)
        · simp [h1, h2, h3]

theorem countNZ_nil : countNZ [] = 0 := rfl

theorem tileSum_nil : tileSum [] = 0 := rfl

theorem countNZ_cons (r : Row) (b : Board) : countNZ (r :: b) = countRowNZ r + countNZ b := by
  simp [countNZ, countRowNZ, List.filter_append]

theorem tileSum_cons (r : Row) (b : Board) : tileSum (r :: b) = tileSumRow r + tileSum b := by
  simp [tileSum, tileSumRow, List.filter_append]

theorem countNZ_slide (b : Board) : countNZ (slide_left b) = countNZ b := by
  induction b with
  | nil => rfl
  | cons r rest ih =>
    simp [slide_left, countNZ_cons, countRow_slide, ih] at *
    all_goals omega

theorem tileSum_slide (b : Board) : tileSum (slide_left b) = tileSum b := by
  induction b with
  | nil => rfl
  | cons r rest ih =>
    simp [slide_left, tileSum_cons, tileSumRow_slide, ih] at *
    all_goals omega

theorem countNZ_merge (b : Board) : countNZ (merge_left b).1 + mergesBoard b = countNZ b := by
  induction b with
  | nil => rfl
  | cons r rest ih =>
    have hr := countRow_merge r
    simp [merge_left, mergesBoard, countNZ_cons] at *
    omega

theorem tileSum_merge (b : Board) : tileSum (merge_left b).1 = tileSum b := by
  induction b with
  | nil => rfl
  | cons r rest ih =>
    have hr := tileSumRow_merge r
    simp [merge_left, tileSum_cons] at *
    omega

theorem countNZ_ccw (b : Board) : countNZ (ccw b) = countNZ b := by
  unfold ccw
  split
  · rename_i a bb c d e f g h i j k l m n o p
    simp only [countNZ_cons, countNZ_nil, countRow4]
    omega
  · rfl

theorem tileSum_ccw (b : Board) : tileSum (ccw b) = tileSum b := by
  unfold ccw
  split
  · rename_i a bb c d e f g h i j k l m n o p
    simp only [tileSum_cons, tileSum_nil, tileSumRow4]
    omega
  · rfl

theorem countNZ_rotCCW (k : Nat) (b : Board) : countNZ (rotCCW k b) = countNZ b := by
  induction k generalizing b with
  | zero => rfl
  | succ n ih =>
    rw [rotCCW, Function.iterate_succ_apply]
    exact (ih (ccw b)).trans (countNZ_ccw b)

theorem tileSum_rotCCW (k : Nat) (b : Board) : tileSum (rotCCW k b) = tileSum b := by
  induction k generalizing b with
  | zero => rfl
  | succ n ih =>
    rw [rotCCW, Function.iterate_succ_apply]
    exact (ih (ccw b)).trans (tileSum_ccw b)

theorem countNZ_move_core (d : Action) (b : Board) :
    countNZ (move_core d b).1 + mergesMove d b = countNZ b := by
  unfold move_core mergesMove
  rw [countNZ_rotCCW, countNZ_slide]
  have := countNZ_merge (slide_left (rotCCW (rotOf d) b))
  rw [this, countNZ_slide, countNZ_rotCCW]

theorem tileSum_move_core (d : Action) (b : Board) : tileSum (move_core d b).1 = tileSum b := by
  unfold move_core
  rw [tileSum_rotCCW, tileSum_slide, tileSum_merge, tileSum_slide, tileSum_rotCCW]

theorem mergesRow_zero_points (r : Row) (h : mergesRow r = 0) : (mergeRowLeft r).2 = 0 := by
  match r with
  | [] => rfl
  | [a] => rfl
  | [a, b] => rfl
  | [a, b, c] => rfl
  | a :: b :: c :: d :: e :: rest => rfl
  | [a, b, c, d] =>
    rw [mergesRow4_eq] at h
    rw [mergeRow4_eq]
    split_ifs at h ⊢ <;> simp_all

theorem mergesRow_zero_id (r : Row) (h : mergesRow r = 0) : (mergeRowLeft r).1 = r := by
  match r with
  | [] => rfl
  | [a] => rfl
  | [a, b] => rfl
  | [a, b, c] => rfl
  | a :: b :: c :: d :: e :: rest => rfl
  | [a, b, c, d] =>
    rw [mergesRow4_eq] at h
    rw [mergeRow4_eq]
    split_ifs at h ⊢ <;> simp_all

theorem mergesBoard_zero_points (b : Board) (h : mergesBoard b = 0) : (merge_left b).2 = 0 := by
  induction b with
  | nil => rfl
  | cons r rest ih =>
    simp [mergesBoard, merge_left] at *
    exact ⟨mergesRow_zero_points r h.1, ih h.2⟩

theorem mergesBoard_zero_id (b : Board) (h : mergesBoard b = 0) : (merge_left b).1 = b := by
  induction b with
  | nil => rfl
  | cons r rest ih =>
    simp [mergesBoard, merge_left] at *
    exact ⟨mergesRow_zero_id r h.1, ih h.2⟩

/-- An illegal (board-preserving) `move_core` earns no points: a merge would
strictly reduce the non-zero count. -/
theorem move_core_unchanged_points (d : Action) (b : Board) (h : (move_core d b).1 = b) :
    (move_core d b).2 = 0 := by
  have hc := countNZ_move_core d b
  rw [h] at hc
  have hm : mergesMove d b = 0 := by omega
  show (merge_left (slide_left (rotCCW (rotOf d) b))).2 = 0
  exact mergesBoard_zero_points _ hm

namespace Game

theorem move_no_tile_illegal (d : Action) (s : GameSt)
    (h : (move_no_tile d s).1 = false) : (move_no_tile d s).2 = s := by
  unfold move_no_tile at *
  by_cases hg : s.gameOver
  · simp [hg]
  · simp [hg] at h ⊢
    have hpts := move_core_unchanged_points d s.board h
    rw [h, hpts]
    cases s
    simp_all

theorem move_no_tile_highestTile (d : Action) (s : GameSt) :
    (move_no_tile d s).2.highestTile = s.highestTile := by
  unfold move_no_tile
  by_cases hg : s.gameOver <;> simp [hg]

theorem move_no_tile_gameOver (d : Action) (s : GameSt) :
    (move_no_tile d s).2.gameOver = s.gameOver := by
  unfold move_no_tile
  by_cases hg : s.gameOver <;> simp [hg]

/-- The probe loop returns with its state restored whenever it starts on the
saved copies. -/
theorem glmLoop_state (origB : Board) (origS : Nat) (ds : List Action) (s : GameSt)
    (hb : s.board = origB) (hs : s.score = origS) :
    (glmLoop origB origS ds s).2 = s := by
  induction ds generalizing s with
  | nil => rfl
  | cons d rest ih =>
    unfold glmLoop
    by_cases hl : (move_no_tile d s).1
    · have hs2 : ({ (move_no_tile d s).2 with board := origB, score := origS } : GameSt)
          = s := by
        have h1 := move_no_tile_highestTile d s
        have h2 := move_no_tile_gameOver d s
        cases s
        simp_all [GameSt.mk.injEq]
      simp only [hl, if_true, hs2]
      exact ih s hb hs
    · have hl2 : (move_no_tile d s).1 = false := by simpa using hl
      have heq := move_no_tile_illegal d s hl2
      simp only [hl2, Bool.false_eq_true, if_false, heq]
      exact ih s hb hs

/-- `get_legal_moves` never mutates the game state: board, score,
`highest_tile` and `game_over` are all restored (claim C6's Game half). -/
theorem get_legal_moves_state (s : GameSt) : (get_legal_moves s).2 = s := by
  unfold get_legal_moves
  by_cases hg : s.gameOver
  · simp [hg]
  · simp [hg]
    exact glmLoop_state s.board s.score DIRECTIONS s rfl rfl

end Game

/-! ### Spawn lemmas -/

theorem flatten_setFlat (b : Board) (pos v : Nat) :
    (setFlat b pos v).flatten = b.flatten.set pos v := by
  show (b.flatten.set pos v).take 4 ++ (((b.flatten.set pos v).drop 4).take 4 ++
    (((b.flatten.set pos v).drop 8).take 4 ++ ((b.flatten.set pos v).drop 12 ++ []))) =
    b.flatten.set pos v
  generalize b.flatten.set pos v = f
  have h4 : f.take 4 ++ f.drop 4 = f := List.take_append_drop 4 f
  have h8 : (f.drop 4).take 4 ++ f.drop 8 = f.drop 4 := by
    have := List.take_append_drop 4 (f.drop 4)
    rwa [List.drop_drop] at this
  have h12 : (f.drop 8).take 4 ++ f.drop 12 = f.drop 8 := by
    have := List.take_append_drop 4 (f.drop 8)
    rwa [List.drop_drop] at this
  rw [List.append_nil, h12, h8, h4]

theorem filterLen_set (f : List Nat) (p v : Nat) (h0 : f.getD p 1 = 0) (hv : v ≠ 0) :
    ((f.set p v).filter (fun x => x ≠ 0)).length =
      (f.filter (fun x => x ≠ 0)).length + 1 := by
  induction f generalizing p with
  | nil => simp [List.getD] at h0
  | cons a t ih =>
    match p with
    | 0 =>
      have ha : a = 0 := by simpa [List.getD] using h0
      subst ha
      simp [List.filter, hv]
    | Nat.succ q =>
      have h0t : t.getD q 1 = 0 := by simpa [List.getD] using h0
      have ih2 := ih q h0t
      by_cases haz : a = 0 <;> simp [List.filter, haz] at ih2 ⊢ <;> omega

theorem filterSum_set (f : List Nat) (p v : Nat) (h0 : f.getD p 1 = 0) (hv : v ≠ 0) :
    (((f.set p v).filter (fun x => x ≠ 0)).map (fun x => 2 ^ x)).sum =
      ((f.filter (fun x => x ≠ 0)).map (fun x => 2 ^ x)).sum + 2 ^ v := by
  induction f generalizing p with
  | nil => simp [List.getD] at h0
  | cons a t ih =>
    match p with
    | 0 =>
      have ha : a = 0 := by simpa [List.getD] using h0
      subst ha
      simp [List.filter, hv]
      omega
    | Nat.succ q =>
      have h0t : t.getD q 1 = 0 := by simpa [List.getD] using h0
      have ih2 := ih q h0t
      by_cases haz : a = 0 <;> simp [List.filter, haz] at ih2 ⊢ <;> omega

theorem countNZ_setFlat (b : Board) (pos v : Nat) (h0 : b.flatten.getD pos 1 = 0)
    (hv : v ≠ 0) : countNZ (setFlat b pos v) = countNZ b + 1 := by
  unfold countNZ
  rw [flatten_setFlat]
  exact filterLen_set _ _ _ h0 hv

theorem tileSum_setFlat (b : Board) (pos v : Nat) (h0 : b.flatten.getD pos 1 = 0)
    (hv : v ≠ 0) : tileSum (setFlat b pos v) = tileSum b + 2 ^ v := by
  unfold tileSum
  rw [flatten_setFlat]
  exact filterSum_set _ _ _ h0 hv

theorem mem_emptyIdxs (b : Board) (pos : Nat) (h : pos ∈ emptyIdxs b) :
    b.flatten.getD pos 1 = 0 := by
  unfold emptyIdxs at h
  have := List.of_mem_filter h
  simpa using this

/-- Characterization of a successful spawn: the value is rank 1 or rank 2 and
it is written into some empty flat position. -/
theorem spawnTile_some (b : Board) (rng : Rng) (b2 : Board) (val : Nat) (rng1 : Rng)
    (h : spawnTile b rng = some (b2, val, rng1)) :
    (val = 1 ∨ val = 2) ∧ ∃ pos, b.flatten.getD pos 1 = 0 ∧ b2 = setFlat b pos val := by
  unfold spawnTile Rng.next at h
  by_cases he : emptyIdxs b = []
  · simp [he] at h
  · simp only [he, if_false] at h
    have h2 := Option.some.inj h
    injection h2 with hb2 h3
    injection h3 with hval hrng
    refine ⟨?_, ⟨(emptyIdxs b).getD ((rng.gen rng.idx).2 % (emptyIdxs b).length) 0, ?_, ?_⟩⟩
    · split at hval <;> omega
    · apply mem_emptyIdxs
      have hlen : 0 < (emptyIdxs b).length := List.length_pos.mpr he
      have hlt := Nat.mod_lt (rng.gen rng.idx).2 hlen
      rw [List.getD_eq_getElem _ _ hlt]
      exact List.getElem_mem _
    · rw [← hb2, ← hval]

namespace Game

/-- A successful `add_tile` keeps the score and adds exactly one tile of rank
1 or 2 into an empty cell. -/
theorem add_tile_some (s : GameSt) (rng : Rng) (s2 : GameSt) (rng1 : Rng)
    (h : add_tile s rng = some (s2, rng1)) :
    s2.score = s.score ∧ countNZ s2.board = countNZ s.board + 1 ∧
      (tileSum s2.board = tileSum s.board + 2 ∨ tileSum s2.board = tileSum s.board + 4) := by
  unfold add_tile at h
  cases hsp : spawnTile s.board rng with
  | none => rw [hsp] at h; exact absurd h (by simp)
  | some t =>
    obtain ⟨b2, val, rng'⟩ := t
    rw [hsp] at h
    obtain ⟨hval, pos, hpos, hb2⟩ := spawnTile_some s.board rng b2 val rng' hsp
    have hcount : countNZ b2 = countNZ s.board + 1 := by
      rw [hb2]; exact countNZ_setFlat _ _ _ hpos (by omega)
    have hsum : tileSum b2 = tileSum s.board + 2 ∨ tileSum b2 = tileSum s.board + 4 := by
      rcases hval with h1 | h2
      · left; rw [hb2, h1]; simpa using tileSum_setFlat s.board pos 1 hpos (by omega)
      · right; rw [hb2, h2]; simpa using tileSum_setFlat s.board pos 2 hpos (by omega)
    set s1 : GameSt := { s with board := b2, highestTile := 2 ^ boardMax b2 } with hs1
    by_cases hf : boardFull b2
    · simp only [hf, if_true] at h
      rw [get_legal_moves_state s1] at h
      by_cases hlm : (get_legal_moves s1).1 = []
      · simp only [hlm, if_true] at h
        injection Option.some.inj h with h4 h5
        rw [← h4]
        exact ⟨rfl, hcount, hsum⟩
      · simp only [hlm, if_false] at h
        injection Option.some.inj h with h4 h5
        rw [← h4]
        exact ⟨rfl, hcount, hsum⟩
    · simp only [hf, if_false] at h
      injection Option.some.inj h with h4 h5
      rw [← h4]
      exact ⟨rfl, hcount, hsum⟩

end Game

namespace Game

/-- `spawnTile` fails exactly when there is no empty cell. -/
theorem spawnTile_none_iff (b : Board) (rng : Rng) :
    spawnTile b rng = none ↔ emptyIdxs b = [] := by
  unfold spawnTile
  by_cases he : emptyIdxs b = [] <;> simp [he]

/-- `add_tile` fails exactly when the board has no empty cell (the
`np.random.choice([])` crash); success does not depend on the draws. -/
theorem add_tile_none_iff (s : GameSt) (rng : Rng) :
    add_tile s rng = none ↔ emptyIdxs s.board = [] := by
  unfold add_tile
  cases hsp : spawnTile s.board rng with
  | none =>
    have he := (spawnTile_none_iff s.board rng).mp hsp
    simp [he]
  | some t =>
    obtain ⟨b2, val, rng2⟩ := t
    have he : ¬ emptyIdxs s.board = [] := by
      intro hE
      rw [(spawnTile_none_iff s.board rng).mpr hE] at hsp
      exact absurd hsp (by simp)
    simp only [he, iff_false]
    intro hcontra
    revert hcontra
    split
    · split <;> simp
    · simp

/-- An illegal `Game.move` (result `False`) leaves the state and the draw
stream untouched. -/
theorem move_illegal_eq (d : Action) (s : GameSt) (rng : Rng) (s2 : GameSt) (rng1 : Rng)
    (h : move d s rng = some (false, s2, rng1)) : s2 = s ∧ rng1 = rng := by
  unfold move at h
  by_cases hg : s.gameOver
  · rw [if_pos hg] at h
    injection Option.some.inj h with ha hb
    injection hb with h2 h3
    exact ⟨h2.symm, h3.symm⟩
  · rw [if_neg hg] at h
    by_cases hl : (move_core d s.board).1 ≠ s.board
    · rw [if_pos hl] at h
      cases hat : (add_tile { s with board := (move_core d s.board).1, score := s.score + (move_core d s.board).2 } rng) with
      | none => rw [hat] at h; exact absurd h (by simp)
      | some t =>
        obtain ⟨s3, rng3⟩ := t
        rw [hat] at h
        injection Option.some.inj h with ha hb
        exact absurd ha (by simp)
    · rw [if_neg hl] at h
      rw [not_not] at hl
      have hpts := move_core_unchanged_points d s.board hl
      injection Option.some.inj h with ha hb
      injection hb with h2 h3
      refine ⟨?_, h3.symm⟩
      rw [← h2, hl, hpts]
      cases s
      simp

/-- A legal `Game.move`: score grows by the merge points, the non-zero count
grows by one minus the number of merged pairs, and the displayed tile sum
grows by exactly the spawned tile (2 or 4). -/
theorem move_legal_eq (d : Action) (s : GameSt) (rng : Rng) (s2 : GameSt) (rng1 : Rng)
    (h : move d s rng = some (true, s2, rng1)) :
    s2.score = s.score + (move_core d s.board).2 ∧
      countNZ s2.board + mergesMove d s.board = countNZ s.board + 1 ∧
      (tileSum s2.board = tileSum s.board + 2 ∨ tileSum s2.board = tileSum s.board + 4) := by
  unfold move at h
  by_cases hg : s.gameOver
  · rw [if_pos hg] at h
    injection Option.some.inj h with ha hb
    exact absurd ha (by simp)
  · rw [if_neg hg] at h
    by_cases hl : (move_core d s.board).1 ≠ s.board
    · rw [if_pos hl] at h
      cases hat : (add_tile { s with board := (move_core d s.board).1, score := s.score + (move_core d s.board).2 } rng) with
      | none => rw [hat] at h; exact absurd h (by simp)
      | some t =>
        obtain ⟨s3, rng3⟩ := t
        rw [hat] at h
        injection Option.some.inj h with ha hb
        injection hb with h2 h3
        obtain ⟨hsc, hcnt, hsum⟩ := add_tile_some _ _ _ _ hat
        rw [← h2]
        refine ⟨by simpa using hsc, ?_, ?_⟩
        · have hmc := countNZ_move_core d s.board
          simp only at hcnt
          omega
        · have hts := tileSum_move_core d s.board
          simp only at hsum
          rw [hts] at hsum
          exact hsum
    · rw [if_neg hl] at h
      injection Option.some.inj h with ha hb
      exact absurd ha (by simp)

/-- The legality flag and the post-move score of `Game.move` do not depend on
the random stream (they are computed before the spawn). -/
theorem move_flag_score_rng (d : Action) (s : GameSt) (rng1 rng2 : Rng) :
    (move d s rng1).map (fun r => (r.1, r.2.1.score)) =
      (move d s rng2).map (fun r => (r.1, r.2.1.score)) := by
  unfold move
  by_cases hg : s.gameOver
  · rw [if_pos hg, if_pos hg]
    rfl
  · rw [if_neg hg, if_neg hg]
    by_cases hl : (move_core d s.board).1 ≠ s.board
    · rw [if_pos hl, if_pos hl]
      set s1 : GameSt := { s with board := (move_core d s.board).1, score := s.score + (move_core d s.board).2 } with hs1
      by_cases he : emptyIdxs s1.board = []
      · rw [(add_tile_none_iff s1 rng1).mpr he, (add_tile_none_iff s1 rng2).mpr he]
      · cases h1 : add_tile s1 rng1 with
        | none => exact absurd ((add_tile_none_iff s1 rng1).mp h1) he
        | some t1 =>
          cases h2 : add_tile s1 rng2 with
          | none => exact absurd ((add_tile_none_iff s1 rng2).mp h2) he
          | some t2 =>
            obtain ⟨sa, ra⟩ := t1
            obtain ⟨sb, rb⟩ := t2
            obtain ⟨ha, -, -⟩ := add_tile_some _ _ _ _ h1
            obtain ⟨hb, -, -⟩ := add_tile_some _ _ _ _ h2
            simp [ha, hb]
    · rw [if_neg hl, if_neg hl]
      rfl

end Game

namespace BoardPy

/-- The probe loop of `Board.has_legal_moves` always hands back a state whose
board is the saved original (every exit path runs `self.board = orig_board`
first), though `game_over` may have been clobbered by the probes. -/
theorem hlmLoop_board (f : Nat) : ∀ (ds : List Action) (s : BoardSt) (orig : Board)
    (rng : Rng) (v : Bool) (p : Nat) (s1 : BoardSt) (rng1 : Rng), s.board = orig →
    bStep f (BReq.hlmLoop ds orig) s rng = some (v, p, s1, rng1) → s1.board = orig := by
  induction f with
  | zero => intro ds s orig rng v p s1 rng1 _ h; exact absurd h (by simp [bStep])
  | succ f ih =>
    intro ds s orig rng v p s1 rng1 hb h
    match ds with
    | [] =>
      simp only [bStep, Option.some_inj] at h
      have := congrArg (fun t => t.2.2.1) h
      simp at this
      rw [← this, hb]
    | d :: rest =>
      simp only [bStep] at h
      cases hmv : bStep f (BReq.mv d) s rng with
      | none => rw [hmv] at h; exact absurd h (by simp)
      | some t =>
        obtain ⟨legal, pts, sm, rngm⟩ := t
        rw [hmv] at h
        by_cases hlg : legal
        · subst hlg
          simp only [if_true, Option.some_inj] at h
          have := congrArg (fun t => t.2.2.1) h
          simp at this
          rw [← this]
        · simp only [Bool.not_eq_true] at hlg
          subst hlg
          simp only [Bool.false_eq_true, if_false] at h
          exact ih rest { sm with board := orig } orig rngm v p s1 rng1 rfl h

/-- `Board.has_legal_moves` restores the board contents on every terminating
run. -/
theorem has_legal_moves_board (f : Nat) (s : BoardSt) (rng : Rng) (v : Bool) (p : Nat)
    (s1 : BoardSt) (rng1 : Rng) (h : has_legal_moves f s rng = some (v, p, s1, rng1)) :
    s1.board = s.board := by
  exact hlmLoop_board f DIRECTIONS s s.board rng v p s1 rng1 rfl h

end BoardPy

/-! ### Net-evaluator and genetic-operator lemmas -/

theorem sum_map_zeroQ (l : List Nat) : (l.map (fun _ => (0 : Rat))).sum = 0 := by
  induction l with
  | nil => rfl
  | cons a t ih => simp [ih]

/-- With the all-zero chromosome every output of `make_move` is 0. -/
theorem make_move_zero (b : Board) : Net.make_move (fun _ => 0) b = [0, 0, 0, 0] := by
  unfold Net.make_move Net.relu
  simp only [mul_zero, sum_map_zeroQ]
  norm_num [List.range_succ]

theorem getD_range_map {α : Type} (n i : Nat) (f : Nat → α) (dflt : α) (h : i < n) :
    (((List.range n).map f).getD i dflt) = f i := by
  rw [List.getD_eq_getElem _ _ (by simpa using h)]
  simp

namespace Net

/-- The continuous crossover picks, at every position, the higher-scoring
parent's weight exactly when the draw exceeds 0.4, the other parent's weight
otherwise; a score tie falls into the dad-favoured branch. -/
theorem crossover_chromosome_getD (mom dad : NetC) (u : Nat → Rat) (i : Nat)
    (h : i < mom.chromosome.length) :
    (crossover_chromosome mom dad u).getD i 0 =
      if mom.score > dad.score then
        (if u i > mkRat 2 5 then mom.chromosome.getD i 0 else dad.chromosome.getD i 0)
      else
        (if u i > mkRat 2 5 then dad.chromosome.getD i 0 else mom.chromosome.getD i 0) := by
  unfold crossover_chromosome
  by_cases hs : mom.score > dad.score <;> simp only [hs, if_true, if_false] <;>
    rw [getD_range_map _ _ _ _ h] <;> simp [hs]

end Net

namespace Genome

theorem chooseZip_length (pairs : List (List Int × List Int)) (u : Nat → Rat) (k : Nat) :
    (chooseZip pairs u k).length = pairs.length := by
  induction pairs generalizing k with
  | nil => rfl
  | cons p rest ih => simp [chooseZip, ih]

/-- Each row of the row-wise crossover is the corresponding row of the parent
selected by that row's single draw. -/
theorem chooseZip_getD (pairs : List (List Int × List Int)) (u : Nat → Rat) (k i : Nat)
    (h : i < pairs.length) :
    (chooseZip pairs u k).getD i [] =
      if u (k + i) > mkRat 1 2 then (pairs.getD i ([], [])).1 else (pairs.getD i ([], [])).2 := by
  induction pairs generalizing k i with
  | nil => simp at h
  | cons p rest ih =>
    match i with
    | 0 => simp [chooseZip]
    | Nat.succ j =>
      have hj : j < rest.length := by simpa using h
      have := ih (k + 1) j hj
      simp only [chooseZip, List.getD_cons_succ]
      rw [this]
      have harith : k + 1 + j = k + (j + 1) := by omega
      rw [harith]

theorem zip_getD_pair (m d : List (List Int)) (i : Nat) (h : i < (m.zip d).length) :
    (m.zip d).getD i ([], []) = (m.getD i [], d.getD i []) := by
  have hlen : (m.zip d).length = min m.length d.length := List.length_zip m d
  have hm : i < m.length := by omega
  have hd : i < d.length := by omega
  rw [List.getD_eq_getElem _ _ h, List.getElem_zip, List.getD_eq_getElem _ _ hm,
    List.getD_eq_getElem _ _ hd]

/-- Row `i` of the crossover of two blocks is mom's row `i` or dad's
row `i` whole. -/
theorem chooseZip_row_mem (m d : List (List Int)) (u : Nat → Rat) (i : Nat)
    (h : i < (m.zip d).length) :
    (chooseZip (m.zip d) u 0).getD i [] = m.getD i [] ∨
      (chooseZip (m.zip d) u 0).getD i [] = d.getD i [] := by
  rw [chooseZip_getD (m.zip d) u 0 i h, zip_getD_pair m d i h]
  by_cases hu : u (0 + i) > mkRat 1 2
  · rw [if_pos hu]
    left
    rfl
  · rw [if_neg hu]
    right
    rfl

end Genome

namespace Pop

theorem insertGe_length (le : NetP → NetP → Bool) (a : NetP) (l : List NetP) :
    (insertGe le a l).length = l.length + 1 := by
  induction l with
  | nil => rfl
  | cons b t ih => by_cases h : le a b <;> simp [insertGe, h, ih]

theorem sortGe_length (le : NetP → NetP → Bool) (l : List NetP) :
    (sortGe le l).length = l.length := by
  induction l with
  | nil => rfl
  | cons a t ih => simp [sortGe, insertGe_length, ih]

theorem get_sorted_networks_length (p : PopulationP) (incl : Bool) :
    (get_sorted_networks p incl).length =
      p.networks.length + (if incl then p.elites.length else 0) := by
  unfold get_sorted_networks
  rw [sortGe_length, List.length_append]
  cases incl <;> simp

theorem randomPopulation_sizes (n e : Nat) :
    (randomPopulation n e).networks.length + (randomPopulation n e).elites.length = n := by
  simp [randomPopulation]

theorem next_generation_sizes (p p' : PopulationP) (h : next_generation p = some p')
    (he : p.num_elite ≤ p.networks.length + p.elites.length) :
    p'.networks.length = p.num_nets - p.num_elite ∧ p'.elites.length = p.num_elite := by
  unfold next_generation spawn_children at h
  by_cases hlen : (get_sorted_networks p true).length < 2
  · simp [hlen] at h
  · simp only [hlen, if_false, Option.some_inj] at h
    rw [← h]
    constructor
    · simp
    · simp only [List.length_take, get_sorted_networks_length]
      simp
      omega

theorem play_games_sizes (g : Nat) (incl : Bool) (o : Nat → Nat × Nat) (p : PopulationP) :
    (play_games g incl o p).networks.length = p.networks.length ∧
      (play_games g incl o p).elites.length = p.elites.length := by
  unfold play_games
  cases incl <;> simp

theorem cull_half_sizes (p : PopulationP) :
    (cull_half p).networks.length =
      min (NETS_PER_POP / 2 - NUM_ELITE) p.networks.length ∧
      (cull_half p).elites = p.elites := by
  unfold cull_half
  refine ⟨?_, rfl⟩
  simp [List.length_take, get_sorted_networks_length]

end Pop

/-! ### Claim theorems -/

/-- C1: the claim states that the terminal flag is true iff the board is full
AND no direction changes the board, for both `Board.is_game_over` and the
`game_over` flag of `Game.add_tile`.  The code refutes it for
`Board.is_game_over`: on the full board `fullBoardC1` the call terminates and
returns truthy although the LEFT move changes the board (a legal move
exists).  The culprit is `np.all(self.board) and ~self.has_legal_moves()`:
`~` on a Python `bool` yields the ints -2 or -1, which are truthy, so every full
board is declared terminal. -/
theorem C1_is_game_over_truthy_on_full_board_with_legal_move :
    (BoardPy.is_game_over 9 ⟨fullBoardC1, false⟩ rngHalf).map (fun r => (r.1, r.2.2.1)) =
      some (true, ⟨fullBoardC1, false⟩) ∧
    (move_core Action.LEFT fullBoardC1).1 ≠ fullBoardC1 ∧
    boardFull fullBoardC1 = true := by
  refine ⟨by decide, by decide, by decide⟩

/-- C2: the claim states that `Net.choose_action` returns the first legal
direction in the descending order of the four raw outputs.  The code refutes
it: the update `highest_priority = highest_priority` is a self-assignment, so
the accumulator stays at `-inf` and the LAST legal direction wins.  With the
all-zero chromosome all four outputs are 0, the stable descending ranking is
LEFT, RIGHT, UP, DOWN, the legal moves of `gameStC2` are LEFT, RIGHT, DOWN —
the claim demands LEFT, the code returns DOWN. -/
theorem C2_choose_action_returns_last_legal_direction :
    (Net.choose_action (fun _ => 0) gameStC2).1 = some Action.DOWN ∧
    (Game.get_legal_moves gameStC2).1 = [Action.LEFT, Action.RIGHT, Action.DOWN] ∧
    Net.make_move (fun _ => 0) gameStC2.board = [0, 0, 0, 0] := by
  refine ⟨?_, by decide, make_move_zero _⟩
  show Net.caLoop (DIRECTIONS.zip (Net.make_move (fun _ => 0) gameStC2.board))
      (Game.get_legal_moves gameStC2).1 none ⊥ = some Action.DOWN
  rw [make_move_zero]
  decide

/-- C3 counterexample: the claim states the non-zero tile count increases by
exactly 1 after a legal move and never decreases.  Moving LEFT on
`gameStC3` (4 tiles, ranks [1,1,2,2] in row 0) merges two pairs and spawns
one tile: the count drops from 4 to 3. -/
theorem C3_counterexample_count_decreases :
    (Game.move Action.LEFT gameStC3 rngHalf).map (fun r => countNZ r.2.1.board) = some 3 ∧
    countNZ gameStC3.board = 4 := by
  refine ⟨by decide, by decide⟩

/-- C3 amended: across one `Game.move` call the non-zero count satisfies
`after + merged-pairs = before + 1` on a legal move (so it increases by
exactly 1 only when no pair merges, and decreases when two or more pairs
merge), and is unchanged on an illegal move. -/
theorem C3_count_change_per_move (d : Action) (s : GameSt) (rng : Rng) (s2 : GameSt) :
    ((Game.move d s rng).map (fun r => (r.1, r.2.1)) = some (true, s2) →
      countNZ s2.board + mergesMove d s.board = countNZ s.board + 1) ∧
    ((Game.move d s rng).map (fun r => (r.1, r.2.1)) = some (false, s2) →
      countNZ s2.board = countNZ s.board) := by
  constructor
  · intro h
    cases hm : Game.move d s rng with
    | none => rw [hm] at h; exact absurd h (by simp)
    | some t =>
      obtain ⟨l, st, rg⟩ := t
      rw [hm] at h
      have h2 : ((l, st) : Bool × GameSt) = (true, s2) := Option.some.inj h
      injection h2 with hl hst
      subst hl
      subst hst
      exact (Game.move_legal_eq d s rng _ rg hm).2.1
  · intro h
    cases hm : Game.move d s rng with
    | none => rw [hm] at h; exact absurd h (by simp)
    | some t =>
      obtain ⟨l, st, rg⟩ := t
      rw [hm] at h
      have h2 : ((l, st) : Bool × GameSt) = (false, s2) := Option.some.inj h
      injection h2 with hl hst
      subst hl
      subst hst
      rw [(Game.move_illegal_eq d s rng _ rg hm).1]

/-- C3 witness: the amended statement evaluated on the two-pair merge state
(legal branch: 3 + 2 = 4 + 1) and on an UP no-op probe of the same state. -/
theorem C3_count_change_per_move_witness :
    countNZ (⟨[[2, 3, 1, 0], [0, 0, 0, 0], [0, 0, 0, 0], [0, 0, 0, 0]], 12, 8, false⟩ :
        GameSt).board + mergesMove Action.LEFT gameStC3.board = countNZ gameStC3.board + 1 ∧
    countNZ gameStC3.board = countNZ gameStC3.board := by
  constructor
  · exact (C3_count_change_per_move Action.LEFT gameStC3 rngHalf _).1 (by decide)
  · exact (C3_count_change_per_move Action.UP gameStC3 rngHalf gameStC3).2 (by decide)

/-- C4 counterexample: the claim states `move` is a pure function of the
pre-move state alone.  Two calls on the identical state with different
pending random draws spawn the new tile in different cells and return
different boards. -/
theorem C4_counterexample_board_depends_on_draws :
    (Game.move Action.LEFT gameStC3 rngHalf).map (fun r => r.2.1.board) ≠
      (Game.move Action.LEFT gameStC3 rngHalfSnd).map (fun r => r.2.1.board) := by
  decide

/-- C4 amended: `Game.move` is deterministic given the explicit draw stream
(it is a function of state and stream), and its legality flag and resulting
score do not depend on the draws at all — only the spawned cell does. -/
theorem C4_move_deterministic_modulo_draws (d : Action) (s : GameSt) (rng1 rng2 : Rng) :
    (Game.move d s rng1).map (fun r => (r.1, r.2.1.score)) =
      (Game.move d s rng2).map (fun r => (r.1, r.2.1.score)) :=
  Game.move_flag_score_rng d s rng1 rng2

/-- C5 counterexample: the claim states that after `[1,1,2,0] → [2,2,0,0]` a
subsequent LEFT is illegal (a no-op).  In fact LEFT on `[2,2,0,0]` merges the
two rank-2 tiles: the board changes (the move is legal) and earns 8 points. -/
theorem C5_counterexample_second_left_is_legal :
    move_core Action.LEFT [[2, 2, 0, 0], [0, 0, 0, 0], [0, 0, 0, 0], [0, 0, 0, 0]] =
      ([[3, 0, 0, 0], [0, 0, 0, 0], [0, 0, 0, 0], [0, 0, 0, 0]], 8) ∧
    ([[3, 0, 0, 0], [0, 0, 0, 0], [0, 0, 0, 0], [0, 0, 0, 0]] : Board) ≠
      [[2, 2, 0, 0], [0, 0, 0, 0], [0, 0, 0, 0], [0, 0, 0, 0]] := by
  refine ⟨by decide, by decide⟩

/-- C5 amended: `[1,1,2,0]` slid-merged-slid leftward gives `[2,2,0,0]` with
4 points (as claimed); the subsequent LEFT is legal and merges further to
`[3,0,0,0]` with 8 points; only the LEFT after that is an illegal no-op. -/
theorem C5_merge_example :
    (slideRowLeft (mergeRowLeft (slideRowLeft [1, 1, 2, 0])).1 = [2, 2, 0, 0] ∧
      (mergeRowLeft (slideRowLeft [1, 1, 2, 0])).2 = 4) ∧
    move_core Action.LEFT [[1, 1, 2, 0], [0, 0, 0, 0], [0, 0, 0, 0], [0, 0, 0, 0]] =
      ([[2, 2, 0, 0], [0, 0, 0, 0], [0, 0, 0, 0], [0, 0, 0, 0]], 4) ∧
    move_core Action.LEFT [[2, 2, 0, 0], [0, 0, 0, 0], [0, 0, 0, 0], [0, 0, 0, 0]] =
      ([[3, 0, 0, 0], [0, 0, 0, 0], [0, 0, 0, 0], [0, 0, 0, 0]], 8) ∧
    move_core Action.LEFT [[3, 0, 0, 0], [0, 0, 0, 0], [0, 0, 0, 0], [0, 0, 0, 0]] =
      ([[3, 0, 0, 0], [0, 0, 0, 0], [0, 0, 0, 0], [0, 0, 0, 0]], 0) := by
  refine ⟨⟨by decide, by decide⟩, by decide, by decide, by decide⟩

/-- C6 counterexample: the claim states the probing calls never mutate the
game-over flag.  `Board.has_legal_moves` on the full board `fullBoardC6`
(whose LEFT move is legal, so the committed state is not terminal) restores
the board but leaves `game_over` flipped from `False` to a truthy value,
because the probing `move` executes `self.game_over = self.is_game_over()`
on the probe board and `has_legal_moves` never restores the flag. -/
theorem C6_counterexample_probe_flips_flag :
    (BoardPy.has_legal_moves 9 ⟨fullBoardC6, false⟩ rngHalf).map (fun r => (r.1, r.2.2.1)) =
      some (true, ⟨fullBoardC6, true⟩) ∧
    (move_core Action.LEFT fullBoardC6).1 ≠ fullBoardC6 := by
  refine ⟨by decide, by decide⟩

/-- C6 amended: `Game.get_legal_moves` restores the whole state (board,
score, highest tile and flag); `Board.has_legal_moves` restores the board
contents on every terminating run but not the `game_over` flag. -/
theorem C6_probes_restore_state (s : GameSt) (f : Nat) (bs : BoardSt) (rng : Rng)
    (bd : Board) :
    (Game.get_legal_moves s).2 = s ∧
    ((BoardPy.has_legal_moves f bs rng).map (fun r => r.2.2.1.board) = some bd →
      bd = bs.board) := by
  constructor
  · exact Game.get_legal_moves_state s
  · intro h
    cases hm : BoardPy.has_legal_moves f bs rng with
    | none => rw [hm] at h; exact absurd h (by simp)
    | some t =>
      obtain ⟨v, p, s1, rng1⟩ := t
      rw [hm] at h
      have h2 : s1.board = bd := Option.some.inj h
      rw [← h2]
      exact BoardPy.has_legal_moves_board f bs rng v p s1 rng1 hm

/-- C6 witness: the amended statement evaluated on `gameStC2` and on the
terminating `fullBoardC6` probe. -/
theorem C6_probes_restore_state_witness :
    (Game.get_legal_moves gameStC2).2 = gameStC2 ∧ fullBoardC6 = fullBoardC6 :=
  ⟨(C6_probes_restore_state gameStC2 9 ⟨fullBoardC6, false⟩ rngHalf fullBoardC6).1,
    (C6_probes_restore_state gameStC2 9 ⟨fullBoardC6, false⟩ rngHalf fullBoardC6).2
      (by decide)⟩

/-- C7: invoking `move` on a terminal state (flag already set) is a no-op in
both engine versions: it reports an illegal move with zero points, spawns
nothing, consumes no randomness, and returns the state bit-identically. -/
theorem C7_move_on_terminal_state_is_noop (d : Action) (s : GameSt) (rng : Rng) (f : Nat)
    (d2 : Action) (bs : BoardSt) (rng2 : Rng) (hg : s.gameOver = true)
    (hb : bs.gameOver = true) :
    Game.move d s rng = some (false, s, rng) ∧
    BoardPy.move (f + 1) d2 bs rng2 = some (false, 0, bs, rng2) := by
  constructor
  · unfold Game.move
    simp [hg]
  · unfold BoardPy.move
    show BoardPy.bStep (Nat.succ f) (BoardPy.BReq.mv d2) bs rng2 = some (false, 0, bs, rng2)
    simp [BoardPy.bStep, hb]

/-- C7 witness: the no-op on a concrete terminal state. -/
theorem C7_move_on_terminal_state_is_noop_witness :
    Game.move Action.LEFT gameStOver rngHalf = some (false, gameStOver, rngHalf) ∧
    BoardPy.move 1 Action.UP ⟨fullBoardC1, true⟩ rngHalf =
      some (false, 0, ⟨fullBoardC1, true⟩, rngHalf) :=
  C7_move_on_terminal_state_is_noop Action.LEFT gameStOver rngHalf 0 Action.UP
    ⟨fullBoardC1, true⟩ rngHalf rfl rfl

/-- C8 counterexample: the claim states the crossover choice is made
independently for every individual weight position (binary variant
included).  A child input-weight block taking entry (0,0) from mom and
entry (0,1) from dad is reachable under the claim's per-weight rule but
unreachable under the source's row-wise `zip` crossover, which copies whole
rows. -/
theorem C8_counterexample_rowwise_not_per_weight :
    (∃ u : Nat → Nat → Rat,
      Genome.crossoverPerWeightSpec momGenome.input_weights dadGenome.input_weights u =
        mixedTarget) ∧
    ¬ (∃ u : Nat → Rat,
      Genome.chooseZip (momGenome.input_weights.zip dadGenome.input_weights) u 0 =
        mixedTarget) := by
  constructor
  · refine ⟨fun i j => if i = 0 ∧ j = 1 then 0 else 1, ?_⟩
    set_option maxRecDepth 8192 in decide
  · rintro ⟨u, h⟩
    have h0 := congrArg (fun l => l.getD 0 ([] : List Int)) h
    simp only at h0
    rw [Genome.chooseZip_getD _ u 0 0 (by decide)] at h0
    by_cases hu : u (0 + 0) > mkRat 1 2 <;>
      simp only [hu, if_true, if_false] at h0 <;> exact absurd h0 (by decide)

/-- C8 amended: before mutation every child weight equals the corresponding
weight of one of its parents.  In the continuous variant the choice is made
independently per weight position, taking the higher-scoring parent exactly
when the uniform draw exceeds 0.4 (ties fall into the dad-favoured branch);
in the binary variant the choice is made per ROW of each weight matrix (one
draw per row), not per individual weight. -/
theorem C8_crossover_choice_granularity :
    (∀ (mom dad : Net.NetC) (u : Nat → Rat) (i : Nat), i < mom.chromosome.length →
      ((Net.crossover_chromosome mom dad u).getD i 0 = mom.chromosome.getD i 0 ∨
        (Net.crossover_chromosome mom dad u).getD i 0 = dad.chromosome.getD i 0) ∧
      (mom.score > dad.score →
        (Net.crossover_chromosome mom dad u).getD i 0 =
          if u i > mkRat 2 5 then mom.chromosome.getD i 0 else dad.chromosome.getD i 0) ∧
      (¬ mom.score > dad.score →
        (Net.crossover_chromosome mom dad u).getD i 0 =
          if u i > mkRat 2 5 then dad.chromosome.getD i 0 else mom.chromosome.getD i 0)) ∧
    (∀ (m d : List (List Int)) (u : Nat → Rat) (i : Nat), i < (m.zip d).length →
      ((Genome.chooseZip (m.zip d) u 0).getD i [] = m.getD i [] ∨
        (Genome.chooseZip (m.zip d) u 0).getD i [] = d.getD i []) ∧
      (Genome.chooseZip (m.zip d) u 0).getD i [] =
        (if u i > mkRat 1 2 then m.getD i [] else d.getD i [])) := by
  constructor
  · intro mom dad u i h
    have hx := Net.crossover_chromosome_getD mom dad u i h
    refine ⟨?_, ?_, ?_⟩
    · rw [hx]
      by_cases hs : mom.score > dad.score <;> by_cases hu : u i > mkRat 2 5 <;>
        simp [hs, hu]
    · intro hs
      rw [hx, if_pos hs]
    · intro hs
      rw [hx, if_neg hs]
  · intro m d u i h
    refine ⟨Genome.chooseZip_row_mem m d u i h, ?_⟩
    rw [Genome.chooseZip_getD (m.zip d) u 0 i h, Genome.zip_getD_pair m d i h]
    simp

/-- C8 witness: the amended statement evaluated on a concrete chromosome and
on the concrete all-ones/all-minus-ones genome blocks. -/
theorem C8_crossover_choice_granularity_witness :
    (((Net.crossover_chromosome ⟨3, [5, 7]⟩ ⟨1, [11, 13]⟩ (fun _ => 1)).getD 0 0 =
        (([5, 7] : List Rat)).getD 0 0 ∨
      (Net.crossover_chromosome ⟨3, [5, 7]⟩ ⟨1, [11, 13]⟩ (fun _ => 1)).getD 0 0 =
        (([11, 13] : List Rat)).getD 0 0) ∧
      ((3 : Rat) > 1 →
        (Net.crossover_chromosome ⟨3, [5, 7]⟩ ⟨1, [11, 13]⟩ (fun _ => 1)).getD 0 0 =
          if (1 : Rat) > mkRat 2 5 then (([5, 7] : List Rat)).getD 0 0
          else (([11, 13] : List Rat)).getD 0 0) ∧
      (¬ (3 : Rat) > 1 →
        (Net.crossover_chromosome ⟨3, [5, 7]⟩ ⟨1, [11, 13]⟩ (fun _ => 1)).getD 0 0 =
          if (1 : Rat) > mkRat 2 5 then (([11, 13] : List Rat)).getD 0 0
          else (([5, 7] : List Rat)).getD 0 0)) ∧
    (((Genome.chooseZip (momGenome.input_weights.zip dadGenome.input_weights)
          (fun _ => 1) 0).getD 0 [] = momGenome.input_weights.getD 0 [] ∨
      (Genome.chooseZip (momGenome.input_weights.zip dadGenome.input_weights)
          (fun _ => 1) 0).getD 0 [] = dadGenome.input_weights.getD 0 []) ∧
      (Genome.chooseZip (momGenome.input_weights.zip dadGenome.input_weights)
          (fun _ => 1) 0).getD 0 [] =
        (if (1 : Rat) > mkRat 1 2 then momGenome.input_weights.getD 0 []
          else dadGenome.input_weights.getD 0 [])) :=
  ⟨C8_crossover_choice_granularity.1 ⟨3, [5, 7]⟩ ⟨1, [11, 13]⟩ (fun _ => 1) 0 (by decide),
    C8_crossover_choice_granularity.2 momGenome.input_weights dadGenome.input_weights
      (fun _ => 1) 0 (by decide)⟩

/-- C9 counterexample: the claim states networks + elites equals the
configured population size at every point of the staged schedule, with elite
count 2 in every generation.  In generation 1 of the reference run (random
population of `NETS_PER_POP = 8` with `NUM_ELITE = 2`, 10 games played, then
the first cull `[:NETS_PER_POP // 2 - NUM_ELITE]`), the elite list is empty
and networks + elites = 2, not 8. -/
theorem C9_counterexample_cull_breaks_invariant :
    popAfterFirstCull.networks.length + popAfterFirstCull.elites.length = 2 ∧
    popAfterFirstCull.elites.length = 0 ∧
    Pop.NETS_PER_POP = 8 ∧ Pop.NUM_ELITE = 2 := by
  refine ⟨by decide, by decide, rfl, rfl⟩

/-- C9 amended: networks + elites equals `num_nets` at each `Population`
construction (randomly, with 0 elites in generation 1; by reproduction, with
`num_elite` elites, whenever the previous pool is at least `num_elite` and
`num_elite ≤ num_nets`); `play_games` never changes the counts; the staged
culls of `run_micro_genetic_alg` shrink `networks` to
`NETS_PER_POP/2 - NUM_ELITE` entries, so the invariant is violated between
the first cull and the next construction. -/
theorem C9_population_size_bookkeeping :
    (∀ n e : Nat, (Pop.randomPopulation n e).networks.length +
      (Pop.randomPopulation n e).elites.length = n) ∧
    (∀ p p' : Pop.PopulationP, Pop.next_generation p = some p' →
      p.num_elite ≤ p.networks.length + p.elites.length → p.num_elite ≤ p.num_nets →
      p'.networks.length + p'.elites.length = p.num_nets) ∧
    (∀ (g : Nat) (incl : Bool) (o : Nat → Nat × Nat) (p : Pop.PopulationP),
      (Pop.play_games g incl o p).networks.length +
        (Pop.play_games g incl o p).elites.length =
        p.networks.length + p.elites.length) ∧
    (∀ p : Pop.PopulationP, (Pop.cull_half p).networks.length =
      min (Pop.NETS_PER_POP / 2 - Pop.NUM_ELITE) p.networks.length ∧
      (Pop.cull_half p).elites = p.elites) := by
  refine ⟨Pop.randomPopulation_sizes, ?_, ?_, Pop.cull_half_sizes⟩
  · intro p p' h he hn
    obtain ⟨h1, h2⟩ := Pop.next_generation_sizes p p' h he
    omega
  · intro g incl o p
    obtain ⟨h1, h2⟩ := Pop.play_games_sizes g incl o p
    omega

/-- C9 witness: the amended statement evaluated on the concrete reference
population. -/
theorem C9_population_size_bookkeeping_witness :
    (⟨2, 8, 2, (List.range 6).map (fun _ => (⟨2, [], []⟩ : Pop.NetP)),
        [⟨1, [], []⟩, ⟨1, [], []⟩]⟩ : Pop.PopulationP).networks.length +
      (⟨2, 8, 2, (List.range 6).map (fun _ => (⟨2, [], []⟩ : Pop.NetP)),
        [⟨1, [], []⟩, ⟨1, [], []⟩]⟩ : Pop.PopulationP).elites.length =
      (Pop.randomPopulation 8 2).num_nets :=
  C9_population_size_bookkeeping.2.1 (Pop.randomPopulation 8 2) _ (by decide) (by decide)
    (by decide)

/-- C10: `slide_left` preserves the multiset of non-zero entries of each row;
`merge_left` preserves the displayed tile sum (each merge turns two rank-v
tiles into one rank-(v+1) tile); and a `Game.move` call changes the total
displayed sum only through the spawned tile: +2 or +4 on a legal move, 0 on
an illegal one. -/
theorem C10_tile_sum_conservation (r : Row) (d : Action) (s : GameSt) (rng : Rng)
    (s2 : GameSt) :
    ((slideRowLeft r).filter (fun v => v ≠ 0) : Multiset Nat) =
      (r.filter (fun v => v ≠ 0) : Multiset Nat) ∧
    (∀ b : Board, tileSum (merge_left b).1 = tileSum b) ∧
    ((Game.move d s rng).map (fun t => (t.1, t.2.1)) = some (true, s2) →
      tileSum s2.board = tileSum s.board + 2 ∨ tileSum s2.board = tileSum s.board + 4) ∧
    ((Game.move d s rng).map (fun t => (t.1, t.2.1)) = some (false, s2) →
      tileSum s2.board = tileSum s.board) := by
  refine ⟨by rw [filter_slideRow], tileSum_merge, ?_, ?_⟩
  · intro h
    cases hm : Game.move d s rng with
    | none => rw [hm] at h; exact absurd h (by simp)
    | some t =>
      obtain ⟨l, st, rg⟩ := t
      rw [hm] at h
      have h2 : ((l, st) : Bool × GameSt) = (true, s2) := Option.some.inj h
      injection h2 with hl hst
      subst hl
      subst hst
      exact (Game.move_legal_eq d s rng _ rg hm).2.2
  · intro h
    cases hm : Game.move d s rng with
    | none => rw [hm] at h; exact absurd h (by simp)
    | some t =>
      obtain ⟨l, st, rg⟩ := t
      rw [hm] at h
      have h2 : ((l, st) : Bool × GameSt) = (false, s2) := Option.some.inj h
      injection h2 with hl hst
      subst hl
      subst hst
      rw [(Game.move_illegal_eq d s rng _ rg hm).1]

/-- C10 witness: the move parts of the conservation statement evaluated on a
legal LEFT (tile sum 12 → 14) and on an illegal UP probe. -/
theorem C10_tile_sum_conservation_witness :
    (tileSum (⟨[[2, 3, 1, 0], [0, 0, 0, 0], [0, 0, 0, 0], [0, 0, 0, 0]], 12, 8, false⟩ :
        GameSt).board = tileSum gameStC3.board + 2 ∨
      tileSum (⟨[[2, 3, 1, 0], [0, 0, 0, 0], [0, 0, 0, 0], [0, 0, 0, 0]], 12, 8, false⟩ :
        GameSt).board = tileSum gameStC3.board + 4) ∧
    tileSum gameStC3.board = tileSum gameStC3.board :=
  ⟨(C10_tile_sum_conservation [0] Action.LEFT gameStC3 rngHalf _).2.2.1 (by decide),
    (C10_tile_sum_conservation [0] Action.UP gameStC3 rngHalf gameStC3).2.2.2 (by decide)⟩

end Spec2048

